import Mathlib

/-!
Verification model of the process orchestrator in src/cli/dev.rs
(railsup `dev` command): Procfile parsing, port rewriting, the spawn
loop, the supervisor control loop and the graceful-shutdown routine.
Strings are modelled as lists of characters; all indices are character
indices.  Every pattern searched for by the code is pure ASCII, so a
byte-level match in the Rust code starts and ends on character
boundaries and the character-level model produces the same strings.
-/

namespace Railsup

/-- Whitespace predicate of Rust's char::is_whitespace (the Unicode
White_Space property), used by str::trim in dev.rs, stated on the
scalar value of the character. -/
def isRustWhitespace (c : Char) : Bool :=
  (0x09 ≤ c.toNat && c.toNat ≤ 0x0D) || c.toNat = 0x20 || c.toNat = 0x85 ||
  c.toNat = 0xA0 || c.toNat = 0x1680 || (0x2000 ≤ c.toNat && c.toNat ≤ 0x200A) ||
  c.toNat = 0x2028 || c.toNat = 0x2029 || c.toNat = 0x202F || c.toNat = 0x205F ||
  c.toNat = 0x3000

/-- Model of str::trim_start. -/
def rustTrimStart (s : List Char) : List Char := s.dropWhile isRustWhitespace

/-- Model of str::trim_end. -/
def rustTrimEnd (s : List Char) : List Char := (s.reverse.dropWhile isRustWhitespace).reverse

/-- Model of str::trim (dev.rs:384, 393-394). -/
def rustTrim (s : List Char) : List Char := rustTrimEnd (rustTrimStart s)

/-- Strip one trailing carriage return, as str::lines does on every
line that was terminated by a newline. -/
def stripCRSuffix (s : List Char) : List Char :=
  if s.getLast? = some '\r' then s.dropLast else s

/-- Worker for rustLines: accumulates the current line in reverse. -/
def rustLinesGo (acc : List Char) : List Char → List (List Char)
  | [] => if acc.isEmpty then [] else [acc.reverse]
  | c :: rest =>
    if c = '\n' then stripCRSuffix acc.reverse :: rustLinesGo [] rest
    else rustLinesGo (c :: acc) rest

/-- Model of str::lines (dev.rs:383): split at each '\n', strip a '\r'
that immediately preceded a '\n', keep a lone trailing '\r', and do not
produce a final empty line when the text ends in '\n'. -/
def rustLines (s : List Char) : List (List Char) := rustLinesGo [] s

/-- Model of str::split_once (dev.rs:392): split at the first
occurrence of the separator, or none when the separator is absent. -/
def splitOnce (s : List Char) (sep : Char) : Option (List Char × List Char) :=
  match s.dropWhile (fun c => c ≠ sep) with
  | [] => none
  | _ :: rest => some (s.takeWhile (fun c => c ≠ sep), rest)

/-- Model of char::is_ascii_alphanumeric, as used by
is_valid_process_name (dev.rs:408): the ranges '0'..'9' (48-57),
'A'..'Z' (65-90) and 'a'..'z' (97-122), stated on the scalar value. -/
def isAsciiAlphanumeric (c : Char) : Bool :=
  (48 ≤ c.toNat && c.toNat ≤ 57) || (65 ≤ c.toNat && c.toNat ≤ 90) ||
  (97 ≤ c.toNat && c.toNat ≤ 122)

/-- Model of is_valid_process_name (dev.rs:405-410). -/
def is_valid_process_name (name : List Char) : Bool :=
  !name.isEmpty && name.all (fun c => isAsciiAlphanumeric c || c = '_' || c = '-')

/-- One iteration of the parsing loop of parse_procfile_content
(dev.rs:383-399): trim the line, skip empties and comments, split at
the first ':', trim both sides, validate. -/
def parseProcLine (line : List Char) : Option (List Char × List Char) :=
  let l := rustTrim line
  if l.isEmpty || l.head? = some '#' then none
  else
    match splitOnce l ':' with
    | none => none
    | some (n, c) =>
      let name := rustTrim n
      let command := rustTrim c
      if !name.isEmpty && !command.isEmpty && is_valid_process_name name then
        some (name, command)
      else none

/-- Model of parse_procfile_content (dev.rs:380-402). -/
def parse_procfile_content (content : List Char) : List (List Char × List Char) :=
  (rustLines content).filterMap parseProcLine

/-- Model of char::is_ascii_digit, used by try_replace_port
(dev.rs:448, 455). -/
def isAsciiDigit (c : Char) : Bool := '0' ≤ c && c ≤ '9'

/-- Model of str::find for a string pattern (dev.rs:442): index of the
first occurrence of the pattern, scanning positions left to right; the
empty pattern matches at position 0. -/
def findSub (s pat : List Char) : Option Nat :=
  if pat.isPrefixOf s then some 0
  else
    match s with
    | [] => none
    | _ :: rest => (findSub rest pat).map (· + 1)

/-- Model of try_replace_port (dev.rs:436-467): find the first
occurrence of the pattern; for the bareword pattern "-p" require the
character right after it to be an ASCII digit; replace the maximal run
of ASCII digits after the pattern with the port string, failing when
the run is empty. -/
def try_replace_port (command pat : List Char) (plen : Nat) (port_str : List Char) :
    Option (List Char) :=
  match findSub command pat with
  | none => none
  | some idx =>
    let start := idx + plen
    let barewordOk : Bool :=
      if pat = ['-', 'p'] then
        match (command.drop start).head? with
        | none => false
        | some c => isAsciiDigit c
      else true
    if barewordOk then
      let stop := start + ((command.drop start).takeWhile isAsciiDigit).length
      if start = stop then none
      else some (command.take start ++ port_str ++ command.drop stop)
    else none

/-- The pattern table of replace_port_in_command (dev.rs:417-423),
each entry paired with its prefix length, in source order. -/
def portPatterns : List (List Char × Nat) :=
  [("--port=".toList, 7), ("--port ".toList, 7),
   ("-p=".toList, 3), ("-p ".toList, 3), ("-p".toList, 2)]

/-- Model of replace_port_in_command (dev.rs:413-433): try each pattern
in table order, return the first successful replacement, or the command
unchanged when every pattern fails. -/
def replace_port_in_command (command : List Char) (port : Nat) : List Char :=
  let port_str := Nat.toDigits 10 port
  match portPatterns.findSome? (fun pr => try_replace_port command pr.1 pr.2 port_str) with
  | some result => result
  | none => command

/-! Supervisor model.  Time is discrete: the graceful-shutdown poll
loop sleeps 50 ms per iteration (dev.rs:303) and the main control loop
100 ms (dev.rs:255); each loop is modelled in its own tick unit.
SHUTDOWN_TIMEOUT is 3 s (dev.rs:21), i.e. the elapsed-time test
start.elapsed() >= SHUTDOWN_TIMEOUT (dev.rs:295) first succeeds at
shutdown tick 60.  A child is described by the tick at which it exits
(none meaning it never exits) together with its exit-status code;
try_wait (dev.rs:244, 284) reports an exit as soon as the current tick
has reached the child's exit tick and reaps the child. -/

/-- Observable actions of the supervisor on its children: spawning a
child (dev.rs:159), sending it the cooperative termination signal
(dev.rs:276, 312), and force-killing it (dev.rs:298). -/
inductive Effect
  | spawned (i : Nat)
  | term (i : Nat)
  | kill (i : Nat)
deriving DecidableEq

/-- Supervisor-level failures of run_with_procfile: the empty-Procfile
bail (dev.rs:135) and a spawn error for entry k (dev.rs:159). -/
inductive RunError
  | parseFailure
  | spawnFailure (k : Nat)
deriving DecidableEq

/-- Result of one run (Result of run_with_procfile collapsed to its
success/error shape). -/
inductive RunResult
  | ok
  | err (e : RunError)
deriving DecidableEq

/-- Model of Child::try_wait at tick t for child i (dev.rs:244, 284):
some code when the child has exited by t, none while it still runs. -/
def tryWait (exitAt : Nat → Option Nat) (code : Nat → Nat) (i t : Nat) : Option Nat :=
  match exitAt i with
  | some e => if e ≤ t then some (code i) else none
  | none => none

/-- Whether child i has exited by tick t. -/
def exitedBy (exitAt : Nat → Option Nat) (i t : Nat) : Bool :=
  match exitAt i with
  | some e => e ≤ t
  | none => false

/-- Number of 50 ms shutdown polls after which start.elapsed() reaches
SHUTDOWN_TIMEOUT = 3 s (dev.rs:21, 295, 303). -/
def graceTicks : Nat := 60

/-- Model of the poll loop of graceful_shutdown (dev.rs:280-304) at
tick t, with remaining ticks until start.elapsed() >= SHUTDOWN_TIMEOUT:
if every child has exited, return with no further action; once the
grace period has elapsed, force-kill every child not yet reaped and
return immediately; otherwise sleep one tick and poll again. -/
def shutdownGo (n : Nat) (ex : Nat → Option Nat) (t : Nat) : Nat → List Effect
  | 0 =>
    if (List.range n).all (fun i => exitedBy ex i t) then []
    else ((List.range n).filter (fun i => !exitedBy ex i t)).map .kill
  | remaining + 1 =>
    if (List.range n).all (fun i => exitedBy ex i t) then []
    else shutdownGo n ex (t + 1) remaining

/-- Model of graceful_shutdown (dev.rs:273-305): first send the
termination signal to every child (dev.rs:275-277), then run the
bounded poll loop.  ex i is the tick, counted from the start of the
poll loop, at which child i exits after receiving the termination
request. -/
def graceful_shutdown (n : Nat) (ex : Nat → Option Nat) : List Effect :=
  (List.range n).map .term ++ shutdownGo n ex 0 graceTicks

/-- Model of the spawn loop of run_with_procfile (dev.rs:144-161),
spawning entries i, i+1, ... while k entries remain: on the first entry
whose spawn fails, stop and report its index; the error operator at
dev.rs:159 returns from the function at once, so nothing is appended
after a failure. -/
def spawnLoop (spawnOk : Nat → Bool) (i : Nat) : Nat → List Effect × Option Nat
  | 0 => ([], none)
  | k + 1 =>
    if spawnOk i then
      let r := spawnLoop spawnOk (i + 1) k
      (.spawned i :: r.1, r.2)
    else ([], some i)

/-- Model of the control loop of run_with_procfile (dev.rs:234-256) at
tick t with the given fuel: check the interrupt flag first (dev.rs:235),
then whether every child's try_wait reports an exit (dev.rs:242-252),
else sleep one tick and iterate.  Returns some true when interrupted,
some false when all children exited, none when the fuel runs out with
the loop still going. -/
def runLoop (intr : Nat → Bool) (n : Nat) (exitAt : Nat → Option Nat) (code : Nat → Nat) :
    Nat → Nat → Option Bool
  | 0, _ => none
  | fuel + 1, t =>
    if intr t then some true
    else if (List.range n).all (fun i => (tryWait exitAt code i t).isSome) then some false
    else runLoop intr n exitAt code fuel (t + 1)

/-- Model of run_with_procfile (dev.rs:126-269) restricted to its
supervisor-visible behaviour: parse the Procfile text, bail when the
entry list is empty (dev.rs:134-136), spawn every entry (dev.rs:144-161),
then run the control loop; on interrupt run graceful_shutdown and return
success, on all-exited return success.  exAfterTerm i is child i's exit
tick after receiving the termination request.  The returned pair is the
effect trace and the run result (none when the control loop is still
running after the given fuel).  Console output, the bundler wrapping and
the output-reader threads are omitted: they touch no child handle and
produce no Effect. -/
def run_with_procfile (content : List Char) (spawnOk : Nat → Bool) (intr : Nat → Bool)
    (exitAt : Nat → Option Nat) (code : Nat → Nat) (exAfterTerm : Nat → Option Nat)
    (fuel : Nat) : List Effect × Option RunResult :=
  let ps := parse_procfile_content content
  if ps.isEmpty then ([], some (.err .parseFailure))
  else
    match spawnLoop spawnOk 0 ps.length with
    | (tr, some k) => (tr, some (.err (.spawnFailure k)))
    | (tr, none) =>
      match runLoop intr ps.length exitAt code fuel 0 with
      | none => (tr, none)
      | some true => (tr ++ graceful_shutdown ps.length exAfterTerm, some .ok)
      | some false => (tr, some .ok)

/-! Specification-side definitions, written from the spec's words, to
be compared with the source-translated functions above. -/

/-- Spec-side reading of a separator pattern form: locate the first
occurrence of the flag text, take the maximal run of ASCII digits
starting right after it; a zero-length run means the pattern is treated
as not matched; otherwise that run is replaced by the port string. -/
def specSepTry (command flag port_str : List Char) : Option (List Char) :=
  match findSub command flag with
  | none => none
  | some idx =>
    let run := (command.drop (idx + flag.length)).takeWhile isAsciiDigit
    if run.isEmpty then none
    else some (command.take (idx + flag.length) ++ port_str ++
               command.drop (idx + flag.length + run.length))

/-- Spec-side reading of the bareword form: at the first occurrence of
the two characters "-p", the character immediately after must be an
ASCII digit, else no match; on a match the maximal digit run after
"-p" is replaced by the port string. -/
def specBareTry (command port_str : List Char) : Option (List Char) :=
  match findSub command ['-', 'p'] with
  | none => none
  | some idx =>
    match (command.drop (idx + 2)).head? with
    | none => none
    | some c =>
      if isAsciiDigit c then
        let run := (command.drop (idx + 2)).takeWhile isAsciiDigit
        some (command.take (idx + 2) ++ port_str ++ command.drop (idx + 2 + run.length))
      else none

/-- Spec-side port rewriter: the five patterns tried in the spec's
fixed priority order, first match wins, original string when none
matches. -/
def specReplacePort (command : List Char) (port : Nat) : List Char :=
  let ps := Nat.toDigits 10 port
  (((((specSepTry command "--port=".toList ps).orElse
      (fun _ => specSepTry command "--port ".toList ps)).orElse
      (fun _ => specSepTry command "-p=".toList ps)).orElse
      (fun _ => specSepTry command "-p ".toList ps)).orElse
      (fun _ => specBareTry command ps)).getD command

/-- Spec-side name alphabet: the character class written
A-Z (65-90), a-z (97-122), 0-9 (48-57), underscore, hyphen. -/
def specNameChar (c : Char) : Bool :=
  (65 ≤ c.toNat && c.toNat ≤ 90) || (97 ≤ c.toNat && c.toNat ≤ 122) ||
  (48 ≤ c.toNat && c.toNat ≤ 57) || c = '_' || c = '-'

/-- Spec-side line admission test on an already-trimmed line: non-empty,
not starting with '#', containing a ':'. -/
def specLineKeep (t : List Char) : Bool :=
  !t.isEmpty && !(t.head? = some '#') && t.contains ':'

/-- Spec-side split of a line at its first ':' into the part before it
and the part after it. -/
def specSplitFirstColon (t : List Char) : List Char × List Char :=
  (t.takeWhile (fun c => c ≠ ':'), (t.dropWhile (fun c => c ≠ ':')).tail)

/-- Spec-side parse: trim every input line, keep those that are
non-empty, do not start with '#' and contain a ':', split each at its
first ':', trim both sides, and keep the pair when both sides are
non-empty and the name lies in the spec's alphabet. -/
def spec_parse (content : List Char) : List (List Char × List Char) :=
  (((rustLines content).map rustTrim).filter specLineKeep).filterMap (fun t =>
    let p := specSplitFirstColon t
    let name := rustTrim p.1
    let cmd := rustTrim p.2
    if !name.isEmpty && !cmd.isEmpty && name.all specNameChar then some (name, cmd) else none)

/-- Join lines with a single newline between them (no trailing
newline). -/
def joinLines : List (List Char) → List Char
  | [] => []
  | [l] => l
  | l :: ls => l ++ '\n' :: joinLines ls

/-- Serialize a (name, command) list back to Procfile text, one
"name: command" line per pair. -/
def serializeProcs (ps : List (List Char × List Char)) : List Char :=
  joinLines (ps.map (fun p => p.1 ++ ':' :: ' ' :: p.2))

/-! Concrete evaluation checks mirroring the unit tests of dev.rs. -/

example :
    parse_procfile_content "web: bin/rails server -p 3000\ncss: bin/rails tailwindcss:watch".toList
      = [("web".toList, "bin/rails server -p 3000".toList),
         ("css".toList, "bin/rails tailwindcss:watch".toList)] := by decide

example :
    parse_procfile_content "  web  :  bin/rails server  \n  css:bin/rails tailwindcss:watch".toList
      = [("web".toList, "bin/rails server".toList),
         ("css".toList, "bin/rails tailwindcss:watch".toList)] := by decide

example : parse_procfile_content "# Comment 1\n# Comment 2\n".toList = [] := by decide

example :
    parse_procfile_content "web: ok\nno_colon_here\n:empty_name\nempty_command:\nbad name: x".toList
      = [("web".toList, "ok".toList)] := by decide

example : findSub "cmd -p=3000".toList "-p=".toList = some 4 := by decide

example : findSub "cmd".toList "--port=".toList = none := by decide

example : findSub "--port=1".toList "-p".toList = some 1 := by decide

example :
    replace_port_in_command "bin/rails server -p 3000".toList 4000
      = "bin/rails server -p 4000".toList := by decide

example :
    replace_port_in_command "bin/rails server -p=3000".toList 4000
      = "bin/rails server -p=4000".toList := by decide

example :
    replace_port_in_command "bin/rails server --port 3000".toList 4000
      = "bin/rails server --port 4000".toList := by decide

example :
    replace_port_in_command "bin/rails server --port=3000".toList 4000
      = "bin/rails server --port=4000".toList := by decide

example :
    replace_port_in_command "bin/rails server".toList 4000
      = "bin/rails server".toList := by decide

example :
    replace_port_in_command "bin/rails server -p3000 -b 0.0.0.0".toList 4000
      = "bin/rails server -p4000 -b 0.0.0.0".toList := by decide

example :
    replace_port_in_command "cmd -p=3000 -pX4000".toList 9000
      = "cmd -p=9000 -pX4000".toList := by decide

example :
    run_with_procfile "a: x\nb: y".toList (fun i => decide (i = 0)) (fun _ => false)
        (fun _ => none) (fun _ => 0) (fun _ => none) 0
      = ([.spawned 0], some (.err (.spawnFailure 1))) := by decide

example :
    run_with_procfile "a: x\nb: y".toList (fun _ => true) (fun _ => false)
        (fun _ => some 0) (fun _ => 7) (fun _ => none) 2
      = ([.spawned 0, .spawned 1], some .ok) := by decide

example :
    run_with_procfile "# only a comment\n".toList (fun _ => true) (fun _ => false)
        (fun _ => some 0) (fun _ => 0) (fun _ => none) 2
      = ([], some (.err .parseFailure)) := by decide

example :
    run_with_procfile "a: x".toList (fun _ => true) (fun t => decide (t = 0))
        (fun _ => none) (fun _ => 0) (fun _ => some 2) 3
      = ([.spawned 0, .term 0], some .ok) := by decide

example : graceful_shutdown 2 (fun i => if i = 0 then some 3 else none)
      = [.term 0, .term 1, .kill 1] := by decide

example :
    serializeProcs [("web".toList, "bin/rails server".toList)] = "web: bin/rails server".toList :=
  by decide

example :
    parse_procfile_content (serializeProcs (parse_procfile_content
        "  web  :  bin/rails server  \n\n# x\ncss:bin/rails tailwindcss:watch".toList))
      = parse_procfile_content
        "  web  :  bin/rails server  \n\n# x\ncss:bin/rails tailwindcss:watch".toList := by decide

/-! Helper lemmas. -/

theorem head?_dropWhile_false {α : Type} (p : α → Bool) (l : List α) :
    ∀ c, ((l.dropWhile p).head? = some c) → p c = false := by
  induction l with
  | nil => intro c h; simp at h
  | cons a l ih =>
    intro c h
    by_cases hp : p a = true
    · rw [List.dropWhile_cons, if_pos hp] at h
      exact ih c h
    · rw [List.dropWhile_cons, if_neg hp] at h
      simp only [List.head?_cons, Option.some.injEq] at h
      subst h
      simpa using hp

/-! Claim C7. -/

/-- C7: for a command on which none of the five recognized patterns
matches, replace_port_in_command returns its input unchanged, for every
target port. -/
theorem c7_no_pattern_match_returns_input (command : List Char) (port : Nat)
    (h : ∀ pr ∈ portPatterns,
        try_replace_port command pr.1 pr.2 (Nat.toDigits 10 port) = none) :
    replace_port_in_command command port = command := by
  simp only [replace_port_in_command]
  rw [List.findSome?_eq_none_iff.mpr h]

/-- Witness for C7 at a concrete command with no port flag. -/
theorem c7_witness :
    (∀ pr ∈ portPatterns,
        try_replace_port "bin/rails server".toList pr.1 pr.2 (Nat.toDigits 10 4000) = none) ∧
    replace_port_in_command "bin/rails server".toList 4000 = "bin/rails server".toList :=
  ⟨by decide, c7_no_pattern_match_returns_input _ 4000 (by decide)⟩

/-! Claim C9. -/

/-- C9: parsing an input with zero resulting entries (for example an
empty file, or one holding only comments and blank lines) returns the
empty list without error, and it is the caller run_with_procfile that
turns an empty parsed list into the fatal parse-failure result. -/
theorem c9_empty_parse_caller_decides :
    parse_procfile_content [] = [] ∧
    parse_procfile_content "# comment\n\n# another comment\n".toList = [] ∧
    (∀ (content : List Char) (spawnOk : Nat → Bool) (intr : Nat → Bool)
        (exitAt : Nat → Option Nat) (code : Nat → Nat) (exAfterTerm : Nat → Option Nat)
        (fuel : Nat), parse_procfile_content content = [] →
        run_with_procfile content spawnOk intr exitAt code exAfterTerm fuel
          = ([], some (.err .parseFailure))) := by
  refine ⟨by decide, by decide, ?_⟩
  intro content spawnOk intr exitAt code exAfterTerm fuel hempty
  simp only [run_with_procfile, hempty, List.isEmpty_nil, if_pos]

/-- Witness for C9 at a concrete comments-only Procfile. -/
theorem c9_witness :
    run_with_procfile "# only comments\n\n".toList (fun _ => true) (fun _ => false)
        (fun _ => none) (fun _ => 0) (fun _ => none) 5
      = ([], some (.err .parseFailure)) :=
  c9_empty_parse_caller_decides.2.2 _ _ _ _ _ _ _ (by decide)

/-! Claim C10. -/

/-- C10: the bareword pattern examines only the first occurrence of
"-p" in the command; when the character right after that occurrence is
not an ASCII digit the bareword attempt fails for the whole command,
so "echo -parse -p8080" is returned unchanged for every target port. -/
theorem c10_bareword_first_occurrence_only :
    (∀ (command port_str : List Char) (idx : Nat),
        findSub command ['-', 'p'] = some idx →
        (∀ c, (command.drop (idx + 2)).head? = some c → isAsciiDigit c = false) →
        try_replace_port command ['-', 'p'] 2 port_str = none) ∧
    (∀ port : Nat,
        replace_port_in_command "echo -parse -p8080".toList port
          = "echo -parse -p8080".toList) := by
  constructor
  · intro command port_str idx hfind hnd
    simp only [try_replace_port, hfind]
    cases hh : (command.drop (idx + 2)).head? with
    | none => simp [hh]
    | some c => simp [hh, hnd c hh]
  · intro port
    rfl

/-- Witness for C10: the bareword failure at the concrete command, via
the first conjunct, and the concrete unchanged rewrite at port 9000. -/
theorem c10_witness :
    try_replace_port "echo -parse -p8080".toList ['-', 'p'] 2 (Nat.toDigits 10 9000) = none ∧
    replace_port_in_command "echo -parse -p8080".toList 9000
      = "echo -parse -p8080".toList :=
  ⟨c10_bareword_first_occurrence_only.1 _ _ 5 (by decide) (by decide),
   c10_bareword_first_occurrence_only.2 9000⟩

/-! Claim C2. -/

theorem try_replace_port_eq_specSepTry (command pat : List Char) (plen : Nat)
    (port_str : List Char) (hne : pat ≠ ['-', 'p']) (hlen : pat.length = plen) :
    try_replace_port command pat plen port_str = specSepTry command pat port_str := by
  simp only [try_replace_port, specSepTry, hlen]
  cases hf : findSub command pat with
  | none => rfl
  | some idx =>
    simp only [if_neg hne, if_pos]
    cases hr : (command.drop (idx + plen)).takeWhile isAsciiDigit with
    | nil => simp
    | cons a t =>
      have hlen1 : (a :: t).length = t.length + 1 := by simp
      rw [hlen1]
      rw [if_neg (by omega), if_neg (by simp)]

theorem try_replace_port_eq_specBareTry (command port_str : List Char) :
    try_replace_port command ['-', 'p'] 2 port_str = specBareTry command port_str := by
  simp only [try_replace_port, specBareTry]
  cases hf : findSub command ['-', 'p'] with
  | none => rfl
  | some idx =>
    simp only [if_pos rfl]
    cases hh : (command.drop (idx + 2)).head? with
    | none => simp
    | some c =>
      by_cases hd : isAsciiDigit c = true
      · cases hcmd : command.drop (idx + 2) with
        | nil => rw [hcmd] at hh; simp at hh
        | cons a t =>
          rw [hcmd] at hh
          simp only [List.head?_cons, Option.some.injEq] at hh
          subst hh
          simp only [hd, if_pos, List.takeWhile_cons, if_true, List.length_cons]
          rw [if_neg (by omega)]
      · simp only [Bool.not_eq_true] at hd
        simp [hd]

/-- C2: the source rewriter agrees with the spec-side rewriter that
tries --port=, --port-space, -p=, -p-space and bareword -p in that
fixed order, first match winning, one replacement at the matched
pattern's first occurrence, an empty digit run after a separator form
counting as no match; and the priority example rewrites
"cmd -p=3000 -pX4000" at port 9000 to "cmd -p=9000 -pX4000". -/
theorem c2_pattern_priority :
    (∀ (command : List Char) (port : Nat),
        replace_port_in_command command port = specReplacePort command port) ∧
    replace_port_in_command "cmd -p=3000 -pX4000".toList 9000
      = "cmd -p=9000 -pX4000".toList := by
  constructor
  · intro command port
    simp only [replace_port_in_command, specReplacePort, portPatterns,
      List.findSome?_cons, List.findSome?_nil]
    rw [try_replace_port_eq_specSepTry _ _ _ _ (by decide) (by decide),
      try_replace_port_eq_specSepTry _ _ _ _ (by decide) (by decide),
      try_replace_port_eq_specSepTry _ _ _ _ (by decide) (by decide),
      try_replace_port_eq_specSepTry _ _ _ _ (by decide) (by decide),
      (by decide : ("-p".toList : List Char) = ['-', 'p']),
      try_replace_port_eq_specBareTry]
    cases specSepTry command "--port=".toList (Nat.toDigits 10 port) <;>
      cases specSepTry command "--port ".toList (Nat.toDigits 10 port) <;>
      cases specSepTry command "-p=".toList (Nat.toDigits 10 port) <;>
      cases specSepTry command "-p ".toList (Nat.toDigits 10 port) <;>
      cases specBareTry command (Nat.toDigits 10 port) <;>
      simp [Option.orElse, Option.getD]
  · decide

/-- Witness for C2 at the priority example, via the general conjunct. -/
theorem c2_witness :
    replace_port_in_command "cmd -p=3000 -pX4000".toList 9000
      = specReplacePort "cmd -p=3000 -pX4000".toList 9000 :=
  c2_pattern_priority.1 _ 9000

/-! Claim C6. -/

theorem try_replace_port_frame (command pat : List Char) (plen : Nat)
    (port_str res : List Char)
    (h : try_replace_port command pat plen port_str = some res) :
    ∃ idx s e, findSub command pat = some idx ∧ s = idx + plen ∧ s < e ∧
      e ≤ command.length ∧
      (∀ c ∈ (command.drop s).take (e - s), isAsciiDigit c = true) ∧
      (∀ c, (command.drop e).head? = some c → isAsciiDigit c = false) ∧
      res = command.take s ++ port_str ++ command.drop e := by
  unfold try_replace_port at h
  cases hf : findSub command pat with
  | none => rw [hf] at h; exact absurd h (by simp)
  | some idx =>
    rw [hf] at h
    dsimp only at h
    cases hbw : (if pat = ['-', 'p'] then
        match (command.drop (idx + plen)).head? with
        | none => false
        | some c => isAsciiDigit c
      else true) with
    | false => rw [hbw] at h; exact absurd h (by simp)
    | true =>
      rw [hbw, if_pos rfl] at h
      by_cases hne : idx + plen
          = idx + plen + ((command.drop (idx + plen)).takeWhile isAsciiDigit).length
      · rw [if_pos hne] at h
        exact absurd h (by simp)
      · rw [if_neg hne] at h
        rw [Option.some_inj] at h
        subst h
        set run := (command.drop (idx + plen)).takeWhile isAsciiDigit with hrun
        have hrunpos : 0 < run.length := by
          rcases Nat.eq_zero_or_pos run.length with h0 | h0
          · exact absurd (by omega) hne
          · exact h0
        have hrunle : run.length ≤ command.length - (idx + plen) := by
          have := List.IsPrefix.length_le
            ( List.takeWhile_prefix (l := command.drop (idx + plen)) isAsciiDigit)
          rw [← hrun, List.length_drop] at this
          exact this
        refine ⟨idx, idx + plen, idx + plen + run.length, rfl, rfl, by omega, by omega,
          ?_, ?_, rfl⟩
        · intro c hc
          rw [Nat.add_sub_cancel_left] at hc
          have : (command.drop (idx + plen)).take run.length = run := by
            exact (List.prefix_iff_eq_take.mp ( List.takeWhile_prefix isAsciiDigit)).symm
          rw [this] at hc
          exact List.mem_takeWhile_imp hc
        · intro c hc
          have hdd : command.drop (idx + plen + run.length)
              = (command.drop (idx + plen)).drop run.length := by
            rw [List.drop_drop]
          have hdw : (command.drop (idx + plen)).drop run.length
              = (command.drop (idx + plen)).dropWhile isAsciiDigit := by
            conv_lhs => rw [← List.takeWhile_append_dropWhile (p := isAsciiDigit)
              (l := command.drop (idx + plen))]
            rw [← hrun, List.drop_left]
          rw [hdd, hdw] at hc
          exact head?_dropWhile_false _ _ c hc

/-- C6: when exactly one of the five recognized patterns matches the
command, the rewrite changes only the maximal ASCII-digit run that
follows the first occurrence of that pattern, replacing it with the
decimal digits of the target port; every character before the run and
every character after it is unchanged. -/
theorem c6_rewrite_changes_only_digit_run (command : List Char) (port : Nat)
    (pat : List Char) (plen : Nat) (res : List Char)
    (hmem : (pat, plen) ∈ portPatterns)
    (hj : try_replace_port command pat plen (Nat.toDigits 10 port) = some res)
    (huniq : ∀ pr ∈ portPatterns, pr ≠ (pat, plen) →
        try_replace_port command pr.1 pr.2 (Nat.toDigits 10 port) = none) :
    replace_port_in_command command port = res ∧
    ∃ idx s e, findSub command pat = some idx ∧ s = idx + plen ∧ s < e ∧
      e ≤ command.length ∧
      (∀ c ∈ (command.drop s).take (e - s), isAsciiDigit c = true) ∧
      (∀ c, (command.drop e).head? = some c → isAsciiDigit c = false) ∧
      res = command.take s ++ Nat.toDigits 10 port ++ command.drop e := by
  refine ⟨?_, try_replace_port_frame _ _ _ _ _ hj⟩
  fin_cases hmem <;>
    simp only [replace_port_in_command, portPatterns, List.findSome?_cons,
      List.findSome?_nil] <;>
    rw [hj] <;> try rfl
  · rw [huniq ("--port=".toList, 7) (by decide) (by decide)]
  · rw [huniq ("--port=".toList, 7) (by decide) (by decide),
      huniq ("--port ".toList, 7) (by decide) (by decide)]
  · rw [huniq ("--port=".toList, 7) (by decide) (by decide),
      huniq ("--port ".toList, 7) (by decide) (by decide),
      huniq ("-p=".toList, 3) (by decide) (by decide)]
  · rw [huniq ("--port=".toList, 7) (by decide) (by decide),
      huniq ("--port ".toList, 7) (by decide) (by decide),
      huniq ("-p=".toList, 3) (by decide) (by decide),
      huniq ("-p ".toList, 3) (by decide) (by decide)]

/-- Witness for C6 at a concrete command whose only recognized pattern
is the space-separated short flag. -/
theorem c6_witness :
    replace_port_in_command "bin/rails server -p 3000".toList 4000
      = "bin/rails server -p 4000".toList :=
  (c6_rewrite_changes_only_digit_run "bin/rails server -p 3000".toList 4000
    "-p ".toList 3 "bin/rails server -p 4000".toList
    (by decide) (by decide) (by decide)).1

/-! Claims C1 and C8: lemmas about the spawn loop and the control
loop. -/

theorem spawnLoop_ok (spawnOk : Nat → Bool) :
    ∀ (m i : Nat), (∀ x, x < m → spawnOk (i + x) = true) →
    spawnLoop spawnOk i m = ((List.range' i m).map Effect.spawned, none) := by
  intro m
  induction m with
  | zero => intro i _; rfl
  | succ m ih =>
    intro i h
    have h0 : spawnOk i = true := by simpa using h 0 (by omega)
    simp only [spawnLoop, h0, if_true]
    rw [ih (i + 1) (fun x hx => by
      have := h (x + 1) (by omega)
      rw [show i + 1 + x = i + (x + 1) from by omega]
      exact this)]
    simp [List.range'_succ]

theorem spawnLoop_fail (spawnOk : Nat → Bool) :
    ∀ (m i k : Nat), (∀ x, x < k → spawnOk (i + x) = true) → spawnOk (i + k) = false →
    k < m →
    spawnLoop spawnOk i m = ((List.range' i k).map Effect.spawned, some (i + k)) := by
  intro m
  induction m with
  | zero => intro i k _ _ hk; omega
  | succ m ih =>
    intro i k hok hf hk
    cases k with
    | zero =>
      have h0 : spawnOk i = false := by simpa using hf
      simp [spawnLoop, h0]
    | succ k =>
      have h0 : spawnOk i = true := by simpa using hok 0 (by omega)
      simp only [spawnLoop, h0, if_true]
      rw [ih (i + 1) k (fun x hx => by
          have := hok (x + 1) (by omega)
          rw [show i + 1 + x = i + (x + 1) from by omega]
          exact this)
        (by rw [show i + 1 + k = i + (k + 1) from by omega]; exact hf) (by omega)]
      simp only [List.range'_succ, List.map_cons, Prod.mk.injEq, Option.some.injEq]
      exact ⟨trivial, by omega⟩

theorem tryWait_isSome (exitAt : Nat → Option Nat) (code : Nat → Nat) (i t : Nat) :
    (tryWait exitAt code i t).isSome = exitedBy exitAt i t := by
  unfold tryWait exitedBy
  cases exitAt i with
  | none => rfl
  | some e =>
    by_cases he : e ≤ t
    · simp [he]
    · simp [he]

theorem runLoop_code_irrelevant (intr : Nat → Bool) (n : Nat) (exitAt : Nat → Option Nat)
    (code code2 : Nat → Nat) :
    ∀ fuel t, runLoop intr n exitAt code fuel t = runLoop intr n exitAt code2 fuel t := by
  intro fuel
  induction fuel with
  | zero => intro t; rfl
  | succ fuel ih =>
    intro t
    simp only [runLoop, tryWait_isSome]
    rw [ih]

/-! Claim C1. -/

/-- C1 (counterexample): with the two-entry Procfile "a: x\nb: y" and a
spawner that succeeds on entry 0 and fails on entry 1, entry 0 is
started, the run returns the spawn error for entry 1, yet entry 0
receives neither a termination request nor a kill before the error is
returned — contradicting the claim that every already-started entry is
driven into the shutdown path. -/
theorem c1_counterexample :
    run_with_procfile "a: x\nb: y".toList (fun i => decide (i = 0)) (fun _ => false)
        (fun _ => none) (fun _ => 0) (fun _ => none) 0
      = ([Effect.spawned 0], some (.err (.spawnFailure 1))) ∧
    Effect.term 0 ∉ (run_with_procfile "a: x\nb: y".toList (fun i => decide (i = 0))
        (fun _ => false) (fun _ => none) (fun _ => 0) (fun _ => none) 0).1 ∧
    Effect.kill 0 ∉ (run_with_procfile "a: x\nb: y".toList (fun i => decide (i = 0))
        (fun _ => false) (fun _ => none) (fun _ => 0) (fun _ => none) 0).1 := by
  decide

/-- C1 (amended): if spawning the k-th entry of the parsed process list
fails, run_with_procfile returns the spawn error immediately; entries
0..k-1 have been started and are abandoned still running — the trace
holds exactly their spawn effects and no termination request or kill is
issued to any of them before the error is returned. -/
theorem c1_amended_spawn_error_abandons_started (content : List Char) (spawnOk : Nat → Bool)
    (intr : Nat → Bool) (exitAt : Nat → Option Nat) (code : Nat → Nat)
    (exAfterTerm : Nat → Option Nat) (fuel k : Nat)
    (hk : k < (parse_procfile_content content).length)
    (hok : ∀ x, x < k → spawnOk x = true) (hfail : spawnOk k = false) :
    run_with_procfile content spawnOk intr exitAt code exAfterTerm fuel
      = ((List.range k).map Effect.spawned, some (.err (.spawnFailure k))) ∧
    (∀ i, Effect.term i ∉ (List.range k).map Effect.spawned) ∧
    (∀ i, Effect.kill i ∉ (List.range k).map Effect.spawned) := by
  have hne : (parse_procfile_content content).isEmpty = false := by
    cases hp : parse_procfile_content content with
    | nil => rw [hp] at hk; simp at hk
    | cons a l => rfl
  have hsp := spawnLoop_fail spawnOk (parse_procfile_content content).length 0 k
    (fun x hx => by simpa using hok x hx) (by simpa using hfail) hk
  refine ⟨?_, ?_, ?_⟩
  · simp only [run_with_procfile, hne, Bool.false_eq_true, if_false]
    rw [hsp, List.range_eq_range']
    simp
  · intro i
    simp [List.mem_map]
  · intro i
    simp [List.mem_map]

/-- Witness for the amended C1 at the concrete two-entry Procfile. -/
theorem c1_amended_witness :
    run_with_procfile "a: x\nb: y".toList (fun i => decide (i = 0)) (fun t => decide (t = 0))
        (fun _ => some 0) (fun _ => 9) (fun _ => some 0) 7
      = ([Effect.spawned 0], some (.err (.spawnFailure 1))) :=
  (c1_amended_spawn_error_abandons_started "a: x\nb: y".toList (fun i => decide (i = 0))
    (fun t => decide (t = 0)) (fun _ => some 0) (fun _ => 9) (fun _ => some 0) 7 1
    (by decide) (fun x hx => by
      have hx0 : x = 0 := by omega
      subst hx0
      decide) (by decide)).1

/-! Claim C8. -/

/-- C8: a child exiting with a nonzero status is not a run-level error:
the control loop leaves its polling only on the interrupt flag or on
all children having exited, and when parsing and spawning succeeded and
the loop finished, the run result is success whatever the children's
exit-status codes are (the same run with any other status assignment
also succeeds). -/
theorem c8_child_exit_status_not_fatal (content : List Char) (spawnOk : Nat → Bool)
    (intr : Nat → Bool) (exitAt : Nat → Option Nat) (code code2 : Nat → Nat)
    (exAfterTerm : Nat → Option Nat) (fuel : Nat) (b : Bool)
    (hps : parse_procfile_content content ≠ [])
    (hspawn : ∀ i, spawnOk i = true)
    (hloop : runLoop intr (parse_procfile_content content).length exitAt code fuel 0
      = some b) :
    (run_with_procfile content spawnOk intr exitAt code exAfterTerm fuel).2 = some .ok ∧
    (run_with_procfile content spawnOk intr exitAt code2 exAfterTerm fuel).2 = some .ok := by
  have hne : (parse_procfile_content content).isEmpty = false := by
    cases hp : parse_procfile_content content with
    | nil => exact absurd hp hps
    | cons a l => rfl
  have hsp := spawnLoop_ok spawnOk (parse_procfile_content content).length 0
    (fun x _ => hspawn _)
  have hloop2 : runLoop intr (parse_procfile_content content).length exitAt code2 fuel 0
      = some b := by
    rw [← runLoop_code_irrelevant intr _ exitAt code code2 fuel 0]
    exact hloop
  constructor
  · simp only [run_with_procfile, hne, Bool.false_eq_true, if_false]
    rw [hsp]
    simp only [hloop]
    cases b <;> rfl
  · simp only [run_with_procfile, hne, Bool.false_eq_true, if_false]
    rw [hsp]
    simp only [hloop2]
    cases b <;> rfl

/-- Witness for C8: the single child exits with nonzero status 7, the
run still reports success, and so does the same run with status 0. -/
theorem c8_witness :
    (run_with_procfile "a: x".toList (fun _ => true) (fun _ => false) (fun _ => some 0)
        (fun _ => 7) (fun _ => none) 1).2 = some .ok ∧
    (run_with_procfile "a: x".toList (fun _ => true) (fun _ => false) (fun _ => some 0)
        (fun _ => 0) (fun _ => none) 1).2 = some .ok :=
  c8_child_exit_status_not_fatal "a: x".toList (fun _ => true) (fun _ => false)
    (fun _ => some 0) (fun _ => 7) (fun _ => 0) (fun _ => none) 1 false
    (by decide) (fun _ => rfl) (by decide)

/-! Claim C4: lemmas about the shutdown poll loop. -/

theorem exitedBy_mono (ex : Nat → Option Nat) (i : Nat) {t t' : Nat} (h : t ≤ t')
    (he : exitedBy ex i t = true) : exitedBy ex i t' = true := by
  unfold exitedBy at he ⊢
  cases hcase : ex i with
  | none => rw [hcase] at he; exact Bool.noConfusion he
  | some e =>
    rw [hcase] at he
    have he2 : e ≤ t := of_decide_eq_true he
    show decide (e ≤ t') = true
    exact decide_eq_true (by omega)

theorem allExited_mono (n : Nat) (ex : Nat → Option Nat) {t t' : Nat} (h : t ≤ t')
    (ha : ((List.range n).all fun i => exitedBy ex i t) = true) :
    ((List.range n).all fun i => exitedBy ex i t') = true := by
  rw [List.all_eq_true] at *
  intro x hx
  exact exitedBy_mono ex x h (ha x hx)

theorem shutdownGo_all_exit (n : Nat) (ex : Nat → Option Nat) :
    ∀ (remaining t : Nat),
      ((List.range n).all fun i => exitedBy ex i (t + remaining)) = true →
      shutdownGo n ex t remaining = [] := by
  intro remaining
  induction remaining with
  | zero =>
    intro t h
    have h0 : ((List.range n).all fun i => exitedBy ex i t) = true := by simpa using h
    simp [shutdownGo, h0]
  | succ r ih =>
    intro t h
    simp only [shutdownGo]
    by_cases h0 : ((List.range n).all fun i => exitedBy ex i t) = true
    · rw [if_pos h0]
    · rw [if_neg h0]
      exact ih (t + 1) (by rw [show t + 1 + r = t + (r + 1) from by omega]; exact h)

theorem shutdownGo_timeout (n : Nat) (ex : Nat → Option Nat) :
    ∀ (remaining t : Nat),
      ((List.range n).all fun i => exitedBy ex i (t + remaining)) = false →
      shutdownGo n ex t remaining
        = ((List.range n).filter (fun i => !exitedBy ex i (t + remaining))).map
            Effect.kill := by
  intro remaining
  induction remaining with
  | zero =>
    intro t h
    have h0 : ((List.range n).all fun i => exitedBy ex i t) = false := by simpa using h
    simp [shutdownGo, h0]
  | succ r ih =>
    intro t h
    have h0 : ((List.range n).all fun i => exitedBy ex i t) = false := by
      cases hval : ((List.range n).all fun i => exitedBy ex i t) with
      | false => rfl
      | true =>
        have := allExited_mono n ex (show t ≤ t + (r + 1) from by omega) hval
        rw [h] at this
        exact Bool.noConfusion this
    simp only [shutdownGo, h0, Bool.false_eq_true, if_false]
    rw [ih (t + 1) (by rw [show t + 1 + r = t + (r + 1) from by omega]; exact h)]
    rw [show t + 1 + r = t + (r + 1) from by omega]

/-- C4: under interrupt with n live children, graceful_shutdown sends a
termination request to every child before the grace-period poll loop
starts; when every child exits within the grace period there is no
forced kill at all; otherwise the routine ends with one single batch of
kills — exactly one forced kill for each child still alive when the
grace period elapses, and nothing after that batch. -/
theorem c4_shutdown_state_machine (n : Nat) (ex : Nat → Option Nat) :
    (∀ i < n, Effect.term i ∈ graceful_shutdown n ex) ∧
    (∃ ks, graceful_shutdown n ex = (List.range n).map Effect.term ++ ks ∧
       ∀ x ∈ ks, ∃ i, i < n ∧ exitedBy ex i graceTicks = false ∧ x = Effect.kill i) ∧
    ((∀ i < n, exitedBy ex i graceTicks = true) →
       ∀ i, Effect.kill i ∉ graceful_shutdown n ex) ∧
    ((∃ i, i < n ∧ exitedBy ex i graceTicks = false) →
       graceful_shutdown n ex = (List.range n).map Effect.term ++
         ((List.range n).filter (fun i => !exitedBy ex i graceTicks)).map Effect.kill) ∧
    (∀ i < n, exitedBy ex i graceTicks = false →
       (graceful_shutdown n ex).count (Effect.kill i) = 1) := by
  have hkill_inj : Function.Injective Effect.kill := by
    intro a b hab
    cases hab
    rfl
  have htimeout : ((List.range n).all fun i => exitedBy ex i graceTicks) = false →
      graceful_shutdown n ex = (List.range n).map Effect.term ++
        ((List.range n).filter (fun i => !exitedBy ex i graceTicks)).map Effect.kill := by
    intro hall
    unfold graceful_shutdown
    rw [shutdownGo_timeout n ex graceTicks 0 (by simpa using hall)]
    simp
  refine ⟨?_, ?_, ?_, ?_, ?_⟩
  · intro i hi
    exact List.mem_append_left _ (List.mem_map.mpr ⟨i, List.mem_range.mpr hi, rfl⟩)
  · cases hall : ((List.range n).all fun i => exitedBy ex i graceTicks) with
    | true =>
      refine ⟨[], ?_, by simp⟩
      unfold graceful_shutdown
      rw [shutdownGo_all_exit n ex graceTicks 0 (by simpa using hall)]
    | false =>
      refine ⟨_, htimeout hall, ?_⟩
      intro x hx
      rcases List.mem_map.mp hx with ⟨i, hi, rfl⟩
      rcases List.mem_filter.mp hi with ⟨hir, hlive⟩
      exact ⟨i, List.mem_range.mp hir, by simpa using hlive, rfl⟩
  · intro hallp i
    have hall : ((List.range n).all fun i => exitedBy ex i graceTicks) = true := by
      rw [List.all_eq_true]
      intro x hx
      exact hallp x (List.mem_range.mp hx)
    unfold graceful_shutdown
    rw [shutdownGo_all_exit n ex graceTicks 0 (by simpa using hall)]
    simp
  · intro hex
    rcases hex with ⟨i, hi, hlive⟩
    have hall : ((List.range n).all fun i => exitedBy ex i graceTicks) = false := by
      cases hval : ((List.range n).all fun i => exitedBy ex i graceTicks) with
      | false => rfl
      | true =>
        rw [List.all_eq_true] at hval
        have := hval i (List.mem_range.mpr hi)
        rw [hlive] at this
        exact Bool.noConfusion this
    exact htimeout hall
  · intro i hi hlive
    have hall : ((List.range n).all fun i => exitedBy ex i graceTicks) = false := by
      cases hval : ((List.range n).all fun i => exitedBy ex i graceTicks) with
      | false => rfl
      | true =>
        rw [List.all_eq_true] at hval
        have := hval i (List.mem_range.mpr hi)
        rw [hlive] at this
        exact Bool.noConfusion this
    rw [htimeout hall, List.count_append]
    have hterm : ((List.range n).map Effect.term).count (Effect.kill i) = 0 := by
      rw [List.count_eq_zero]
      simp
    rw [hterm, List.count_map_of_injective _ Effect.kill hkill_inj]
    rw [List.count_filter (by simpa using hlive)]
    rw [Nat.zero_add]
    exact List.count_eq_one_of_mem (List.nodup_range n) (List.mem_range.mpr hi)

/-- Witness for C4: two children, child 0 exits at poll tick 3, child 1
never exits; child 1 receives exactly one forced kill. -/
theorem c4_witness :
    (graceful_shutdown 2 (fun i => if i = 0 then some 3 else none)).count (Effect.kill 1)
      = 1 :=
  (c4_shutdown_state_machine 2 (fun i => if i = 0 then some 3 else none)).2.2.2.2 1
    (by decide) (by decide)

/-! Claim C3: the source parser agrees with the spec-side parser. -/

theorem filter_filterMap_comp {α β γ : Type} (l : List α) (f : α → β) (p : β → Bool)
    (g : β → Option γ) :
    ((l.map f).filter p).filterMap g
      = l.filterMap (fun x => if p (f x) then g (f x) else none) := by
  induction l with
  | nil => rfl
  | cons a l ih =>
    by_cases hp : p (f a) = true
    · rw [List.map_cons, List.filter_cons, if_pos hp, List.filterMap_cons,
        List.filterMap_cons, if_pos hp]
      cases g (f a) <;> simp [ih]
    · rw [List.map_cons, List.filter_cons, if_neg hp, List.filterMap_cons, if_neg hp]
      simpa using ih

theorem nameChar_eq (c : Char) :
    (isAsciiAlphanumeric c || c = '_' || c = '-') = specNameChar c := by
  unfold isAsciiAlphanumeric specNameChar
  rw [Bool.eq_iff_iff]
  simp only [Bool.or_eq_true, Bool.and_eq_true, decide_eq_true_eq]
  tauto

theorem is_valid_eq_spec (n : List Char) :
    is_valid_process_name n = (!n.isEmpty && n.all specNameChar) := by
  unfold is_valid_process_name
  simp only [nameChar_eq]

theorem contains_iff_mem (s : List Char) (a : Char) : s.contains a = true ↔ a ∈ s :=
  List.elem_iff

theorem splitOnce_none (s : List Char) (sep : Char) (h : sep ∉ s) :
    splitOnce s sep = none := by
  unfold splitOnce
  have hd : s.dropWhile (fun c => c ≠ sep) = [] := by
    rw [List.dropWhile_eq_nil_iff]
    intro x hx
    have hxs : x ≠ sep := fun hxe => h (hxe ▸ hx)
    simp [hxs]
  rw [hd]

theorem splitOnce_mem (s : List Char) (sep : Char) (h : sep ∈ s) :
    splitOnce s sep
      = some (s.takeWhile (fun c => c ≠ sep), (s.dropWhile (fun c => c ≠ sep)).tail) := by
  unfold splitOnce
  cases hd : s.dropWhile (fun c => c ≠ sep) with
  | nil =>
    rw [List.dropWhile_eq_nil_iff] at hd
    have := hd sep h
    simp at this
  | cons a rest => simp

theorem parseProcLine_eq_spec (line : List Char) :
    parseProcLine line
      = (if specLineKeep (rustTrim line) then
           (let p := specSplitFirstColon (rustTrim line)
            let name := rustTrim p.1
            let cmd := rustTrim p.2
            if !name.isEmpty && !cmd.isEmpty && name.all specNameChar then some (name, cmd)
            else none)
         else none) := by
  unfold parseProcLine specLineKeep specSplitFirstColon
  dsimp only
  set t := rustTrim line with ht
  by_cases hcol : ':' ∈ t
  · cases hE : t.isEmpty with
    | true => simp [hE]
    | false =>
      by_cases hH : t.head? = some '#'
      · simp [hE, hH]
      · have hcon : t.contains ':' = true := (contains_iff_mem t ':').mpr hcol
        have habsorb : ∀ x y b : Bool, (x && y && (x && b)) = (x && y && b) := by decide
        simp only [splitOnce_mem t ':' hcol, hE, hH, hcon, is_valid_eq_spec, habsorb]
        simp
  · have hcon : t.contains ':' = false := by
      rw [Bool.eq_false_iff]
      intro hc
      exact hcol ((contains_iff_mem t ':').mp hc)
    simp [splitOnce_none t ':' hcol, hcon, hcol]

/-- C3: for every input text, the parser yields exactly the pairs
described by the spec: in input-line order, from the trimmed lines that
are non-empty, do not start with '#' and contain a ':', split at the
first ':', both sides trimmed, kept only when both sides are non-empty
and the name stays within A-Z, a-z, 0-9, underscore, hyphen; lines
without a ':' are silently skipped. -/
theorem c3_parser_agrees_with_spec (content : List Char) :
    parse_procfile_content content = spec_parse content := by
  unfold parse_procfile_content spec_parse
  rw [filter_filterMap_comp]
  exact List.filterMap_congr (fun line _ => parseProcLine_eq_spec line)

/-- Witness for C3 at a concrete Procfile text exercising comments,
missing colons, empty sides and an invalid name. -/
theorem c3_witness :
    parse_procfile_content
        "# c\nweb: ok\nno_colon\n:x\ny:\nbad name: z\ncss: bin/x tail:watch".toList
      = spec_parse
        "# c\nweb: ok\nno_colon\n:x\ny:\nbad name: z\ncss: bin/x tail:watch".toList :=
  c3_parser_agrees_with_spec _

/-! Claim C5: trimming and line-splitting lemmas for the round-trip. -/

theorem rustTrimStart_eq_self (l : List Char)
    (h : ∀ c, l.head? = some c → isRustWhitespace c = false) : rustTrimStart l = l := by
  unfold rustTrimStart
  cases l with
  | nil => rfl
  | cons a t => rw [List.dropWhile_cons, if_neg (by simp [h a rfl])]

theorem rustTrimEnd_eq_self (l : List Char)
    (h : ∀ c, l.getLast? = some c → isRustWhitespace c = false) : rustTrimEnd l = l := by
  unfold rustTrimEnd
  cases hr : l.reverse with
  | nil =>
    have hl : l = [] := List.reverse_eq_nil_iff.mp hr
    subst hl
    rfl
  | cons a t =>
    have ha : l.getLast? = some a := by rw [← List.head?_reverse, hr]; rfl
    rw [List.dropWhile_cons, if_neg (by simp [h a ha]), ← hr, List.reverse_reverse]

theorem rustTrim_eq_self (l : List Char)
    (hh : ∀ c, l.head? = some c → isRustWhitespace c = false)
    (hl : ∀ c, l.getLast? = some c → isRustWhitespace c = false) : rustTrim l = l := by
  unfold rustTrim
  rw [rustTrimStart_eq_self l hh, rustTrimEnd_eq_self l hl]

theorem head?_rustTrim_not_ws (l : List Char) :
    ∀ c, (rustTrim l).head? = some c → isRustWhitespace c = false := by
  intro c hc
  have hpre : rustTrim l <+: rustTrimStart l := by
    unfold rustTrim rustTrimEnd
    have hsuf := List.dropWhile_suffix (l := (rustTrimStart l).reverse) isRustWhitespace
    have h1 := List.reverse_prefix.mpr hsuf
    rwa [List.reverse_reverse] at h1
  rcases hpre with ⟨t2, heq⟩
  have hh : (rustTrimStart l).head? = some c := by
    rw [← heq, List.head?_append, hc]
    rfl
  exact head?_dropWhile_false _ _ c hh

theorem getLast?_rustTrim_not_ws (l : List Char) :
    ∀ c, (rustTrim l).getLast? = some c → isRustWhitespace c = false := by
  intro c hc
  unfold rustTrim rustTrimEnd at hc
  rw [List.getLast?_reverse] at hc
  exact head?_dropWhile_false _ _ c hc

theorem rustTrim_idem (l : List Char) : rustTrim (rustTrim l) = rustTrim l :=
  rustTrim_eq_self _ (head?_rustTrim_not_ws l) (getLast?_rustTrim_not_ws l)

theorem rustTrim_cons_ws (w : Char) (l : List Char) (hw : isRustWhitespace w = true) :
    rustTrim (w :: l) = rustTrim l := by
  unfold rustTrim rustTrimStart
  rw [List.dropWhile_cons, if_pos hw]

theorem mem_rustTrim (l : List Char) (x : Char) (hx : x ∈ rustTrim l) : x ∈ l := by
  unfold rustTrim rustTrimEnd rustTrimStart at hx
  rw [List.mem_reverse] at hx
  have h1 : x ∈ (l.dropWhile isRustWhitespace).reverse :=
    List.Sublist.mem hx (List.dropWhile_sublist _)
  rw [List.mem_reverse] at h1
  exact List.Sublist.mem h1 (List.dropWhile_sublist _)

theorem mem_stripCRSuffix (l : List Char) (x : Char) (hx : x ∈ stripCRSuffix l) :
    x ∈ l := by
  unfold stripCRSuffix at hx
  by_cases h : l.getLast? = some '\r'
  · rw [if_pos h] at hx
    exact List.Sublist.mem hx (List.dropLast_sublist l)
  · rwa [if_neg h] at hx

theorem rustLinesGo_nil (acc : List Char) :
    rustLinesGo acc [] = if acc.isEmpty then [] else [acc.reverse] := rfl

theorem rustLinesGo_cons (acc : List Char) (c : Char) (s : List Char) :
    rustLinesGo acc (c :: s)
      = if c = '\n' then stripCRSuffix acc.reverse :: rustLinesGo [] s
        else rustLinesGo (c :: acc) s := rfl

theorem rustLinesGo_no_newline :
    ∀ (s acc : List Char), '\n' ∉ acc → ∀ l ∈ rustLinesGo acc s, '\n' ∉ l := by
  intro s
  induction s with
  | nil =>
    intro acc hacc l hl
    rw [rustLinesGo_nil] at hl
    by_cases he : acc.isEmpty = true
    · rw [if_pos he] at hl
      simp at hl
    · rw [if_neg he] at hl
      simp only [List.mem_singleton] at hl
      subst hl
      simpa [List.mem_reverse] using hacc
  | cons c rest ih =>
    intro acc hacc l hl
    rw [rustLinesGo_cons] at hl
    by_cases hc : c = '\n'
    · rw [if_pos hc] at hl
      rcases List.mem_cons.mp hl with rfl | hl2
      · intro hmem
        exact hacc (List.mem_reverse.mp (mem_stripCRSuffix _ _ hmem))
      · exact ih [] (by simp) l hl2
    · rw [if_neg hc] at hl
      refine ih (c :: acc) ?_ l hl
      intro hm
      rcases List.mem_cons.mp hm with h1 | h1
      · exact hc h1.symm
      · exact hacc h1

theorem rustLines_no_newline (s : List Char) : ∀ l ∈ rustLines s, '\n' ∉ l :=
  rustLinesGo_no_newline s [] (by simp)

theorem rustLinesGo_append :
    ∀ (l acc rest : List Char), '\n' ∉ l →
      rustLinesGo acc (l ++ rest) = rustLinesGo (l.reverse ++ acc) rest := by
  intro l
  induction l with
  | nil => intro acc rest _; rfl
  | cons c l ih =>
    intro acc rest hnl
    have hc : ¬(c = '\n') := by
      intro h
      subst h
      exact hnl (List.mem_cons_self _ _)
    show rustLinesGo acc (c :: (l ++ rest)) = _
    rw [rustLinesGo_cons, if_neg hc,
      ih (c :: acc) rest (fun hm => hnl (List.mem_cons_of_mem c hm)),
      show (c :: l).reverse ++ acc = l.reverse ++ (c :: acc) from by simp]

theorem rustLines_joinLines :
    ∀ (ls : List (List Char)),
      (∀ l ∈ ls, '\n' ∉ l ∧ l ≠ [] ∧ l.getLast? ≠ some '\r') →
      rustLines (joinLines ls) = ls := by
  intro ls
  induction ls with
  | nil => intro _; rfl
  | cons l ls ih =>
    intro h
    rcases h l (List.mem_cons_self _ _) with ⟨hnl, hne, hcr⟩
    cases ls with
    | nil =>
      show rustLines (joinLines [l]) = [l]
      have hj : joinLines [l] = l := rfl
      rw [hj]
      unfold rustLines
      have hgo := rustLinesGo_append l [] [] hnl
      rw [List.append_nil, List.append_nil] at hgo
      rw [hgo, rustLinesGo_nil, if_neg (by simp [hne])]
      simp
    | cons l2 ls2 =>
      have hj : joinLines (l :: l2 :: ls2) = l ++ '\n' :: joinLines (l2 :: ls2) := rfl
      unfold rustLines
      rw [hj, rustLinesGo_append l [] ('\n' :: joinLines (l2 :: ls2)) hnl, List.append_nil]
      rw [rustLinesGo_cons, if_pos rfl, List.reverse_reverse]
      have hstrip : stripCRSuffix l = l := by
        unfold stripCRSuffix
        rw [if_neg hcr]
      rw [hstrip]
      have htail := ih (fun x hx => h x (List.mem_cons_of_mem l hx))
      unfold rustLines at htail
      rw [htail]

theorem not_ws_of_toNat_range (ch : Char) (h1 : 33 ≤ ch.toNat) (h2 : ch.toNat ≤ 132) :
    isRustWhitespace ch = false := by
  unfold isRustWhitespace
  rw [Bool.eq_false_iff]
  intro hws
  simp only [Bool.or_eq_true, Bool.and_eq_true, decide_eq_true_eq] at hws
  omega

theorem nameChar_not_ws (ch : Char) (h : specNameChar ch = true) :
    isRustWhitespace ch = false := by
  unfold specNameChar at h
  simp only [Bool.or_eq_true, Bool.and_eq_true, decide_eq_true_eq] at h
  rcases h with (((h | h) | h) | rfl) | rfl
  · exact not_ws_of_toNat_range ch (by omega) (by omega)
  · exact not_ws_of_toNat_range ch (by omega) (by omega)
  · exact not_ws_of_toNat_range ch (by omega) (by omega)
  · decide
  · decide

theorem nameChar_ne (ch : Char) (h : specNameChar ch = true) :
    ch ≠ ':' ∧ ch ≠ '#' ∧ ch ≠ '\n' := by
  unfold specNameChar at h
  simp only [Bool.or_eq_true, Bool.and_eq_true, decide_eq_true_eq] at h
  refine ⟨?_, ?_, ?_⟩ <;>
  · rintro rfl
    revert h
    decide

theorem takeWhile_junction (n r : List Char) (h : ∀ x ∈ n, x ≠ ':') :
    (n ++ ':' :: r).takeWhile (fun c => c ≠ ':') = n ∧
    (n ++ ':' :: r).dropWhile (fun c => c ≠ ':') = ':' :: r := by
  induction n with
  | nil => constructor <;> simp [List.takeWhile_cons, List.dropWhile_cons]
  | cons a n ih =>
    have ha : a ≠ ':' := h a (List.mem_cons_self _ _)
    have ih2 := ih (fun x hx => h x (List.mem_cons_of_mem a hx))
    constructor
    · rw [List.cons_append, List.takeWhile_cons, if_pos (by simp [ha]), ih2.1]
    · rw [List.cons_append, List.dropWhile_cons, if_pos (by simp [ha])]
      exact ih2.2

theorem parseProcLine_serialized (n c : List Char)
    (hval : is_valid_process_name n = true)
    (hctrim : rustTrim c = c) (hcne : c ≠ []) :
    parseProcLine (n ++ ':' :: ' ' :: c) = some (n, c) := by
  have hval0 := hval
  rw [is_valid_eq_spec, Bool.and_eq_true] at hval
  obtain ⟨hne0, hall0⟩ := hval
  have hne : n ≠ [] := by simpa using hne0
  have hall : ∀ x ∈ n, specNameChar x = true := List.all_eq_true.mp hall0
  obtain ⟨cl, hcl⟩ : ∃ cl, c.getLast? = some cl := by
    cases hc : c.getLast? with
    | none => exact absurd (List.getLast?_eq_none_iff.mp hc) hcne
    | some x => exact ⟨x, rfl⟩
  have hclns : isRustWhitespace cl = false :=
    getLast?_rustTrim_not_ws c cl (by rwa [hctrim])
  have hLlast : (n ++ ':' :: ' ' :: c).getLast? = some cl := by
    rw [List.getLast?_append,
      show (':' :: ' ' :: c) = [':', ' '] ++ c from rfl,
      List.getLast?_append, hcl]
    rfl
  obtain ⟨a, n', rfl⟩ : ∃ a n', n = a :: n' := by
    cases n with
    | nil => exact absurd rfl hne
    | cons a n' => exact ⟨a, n', rfl⟩
  have haspec : specNameChar a = true := hall a (List.mem_cons_self _ _)
  have hLtrim : rustTrim ((a :: n') ++ ':' :: ' ' :: c) = (a :: n') ++ ':' :: ' ' :: c := by
    refine rustTrim_eq_self _ ?_ ?_
    · intro ch hch
      simp only [List.cons_append, List.head?_cons, Option.some.injEq] at hch
      subst hch
      exact nameChar_not_ws a haspec
    · intro ch hch
      rw [hLlast] at hch
      cases hch
      exact hclns
  have hsplit := takeWhile_junction (a :: n') (' ' :: c)
    (fun x hx => (nameChar_ne x (hall x hx)).1)
  unfold parseProcLine
  dsimp only
  rw [hLtrim]
  have hLne : ((a :: n') ++ ':' :: ' ' :: c).isEmpty = false := rfl
  have hLhd : ((a :: n') ++ ':' :: ' ' :: c).head? = some a := rfl
  rw [splitOnce_mem _ ':'
      (List.mem_append_right _ (List.mem_cons_self _ _)),
    hsplit.1, hsplit.2]
  have hntrim : rustTrim (a :: n') = a :: n' := by
    refine rustTrim_eq_self _ ?_ ?_
    · intro ch hch
      simp only [List.head?_cons, Option.some.injEq] at hch
      subst hch
      exact nameChar_not_ws a haspec
    · intro ch hch
      exact nameChar_not_ws ch (hall ch (List.mem_of_mem_getLast? hch))
  have hctrim2 : rustTrim (' ' :: c) = c := by
    rw [rustTrim_cons_ws ' ' c (by decide), hctrim]
  simp only [List.tail_cons, hLne, hLhd, hntrim, hctrim2, hval0]
  have hhash : ¬(a = '#') := (nameChar_ne a haspec).2.1
  simp [hcne, hne, hhash]

theorem splitOnce_mem_right (s : List Char) (sep : Char) (x y : List Char)
    (h : splitOnce s sep = some (x, y)) : ∀ ch ∈ y, ch ∈ s := by
  unfold splitOnce at h
  cases hd : s.dropWhile (fun c => c ≠ sep) with
  | nil => rw [hd] at h; exact absurd h (by simp)
  | cons a rest =>
    rw [hd] at h
    simp only [Option.some.injEq, Prod.mk.injEq] at h
    obtain ⟨-, rfl⟩ := h
    intro ch hch
    have hmem : ch ∈ a :: rest := List.mem_cons_of_mem a hch
    rw [← hd] at hmem
    exact List.Sublist.mem hmem (List.dropWhile_sublist _)

theorem parse_pair_shape (content : List Char) (p : List Char × List Char)
    (hp : p ∈ parse_procfile_content content) :
    is_valid_process_name p.1 = true ∧ rustTrim p.2 = p.2 ∧ p.2 ≠ [] ∧ '\n' ∉ p.2 := by
  unfold parse_procfile_content at hp
  rcases List.mem_filterMap.mp hp with ⟨line, hline, hsome⟩
  unfold parseProcLine at hsome
  by_cases h1 : ((rustTrim line).isEmpty || decide ((rustTrim line).head? = some '#')) = true
  · rw [if_pos h1] at hsome
    exact absurd hsome (by simp)
  · rw [if_neg h1] at hsome
    cases hsp : splitOnce (rustTrim line) ':' with
    | none => rw [hsp] at hsome; exact absurd hsome (by simp)
    | some nc =>
      obtain ⟨n0, c0⟩ := nc
      rw [hsp] at hsome
      dsimp only at hsome
      by_cases h2 : (!(rustTrim n0).isEmpty && !(rustTrim c0).isEmpty &&
          is_valid_process_name (rustTrim n0)) = true
      · rw [if_pos h2] at hsome
        rw [Option.some_inj] at hsome
        subst hsome
        simp only [Bool.and_eq_true, Bool.not_eq_true', List.isEmpty_eq_false] at h2
        refine ⟨h2.2, rustTrim_idem _, h2.1.2, ?_⟩
        intro hmem
        have h3 : '\n' ∈ c0 := mem_rustTrim _ _ hmem
        have h4 : '\n' ∈ rustTrim line := splitOnce_mem_right _ ':' n0 c0 hsp '\n' h3
        exact rustLines_no_newline content line hline (mem_rustTrim _ _ h4)
      · rw [if_neg h2] at hsome
        exact absurd hsome (by simp)

theorem serialized_line_ok (p : List Char × List Char)
    (hv : is_valid_process_name p.1 = true) (hct : rustTrim p.2 = p.2)
    (hcn : p.2 ≠ []) (hnl2 : '\n' ∉ p.2) :
    '\n' ∉ p.1 ++ ':' :: ' ' :: p.2 ∧ p.1 ++ ':' :: ' ' :: p.2 ≠ [] ∧
    (p.1 ++ ':' :: ' ' :: p.2).getLast? ≠ some '\r' := by
  rw [is_valid_eq_spec, Bool.and_eq_true] at hv
  have hall : ∀ x ∈ p.1, specNameChar x = true := List.all_eq_true.mp hv.2
  obtain ⟨cl, hcl⟩ : ∃ cl, p.2.getLast? = some cl := by
    cases hc : p.2.getLast? with
    | none => exact absurd (List.getLast?_eq_none_iff.mp hc) hcn
    | some x => exact ⟨x, rfl⟩
  have hclns : isRustWhitespace cl = false :=
    getLast?_rustTrim_not_ws p.2 cl (by rwa [hct])
  refine ⟨?_, ?_, ?_⟩
  · intro hm
    rcases List.mem_append.mp hm with hm1 | hm1
    · exact (nameChar_ne '\n' (hall _ hm1)).2.2 rfl
    · rcases List.mem_cons.mp hm1 with h' | h'
      · exact absurd h' (by decide)
      · rcases List.mem_cons.mp h' with h'' | h''
        · exact absurd h'' (by decide)
        · exact hnl2 h''
  · cases hp1 : p.1 <;> simp
  · have hLlast : (p.1 ++ ':' :: ' ' :: p.2).getLast? = some cl := by
      rw [List.getLast?_append,
        show (':' :: ' ' :: p.2) = [':', ' '] ++ p.2 from rfl,
        List.getLast?_append, hcl]
      rfl
    rw [hLlast]
    intro hcr
    rw [Option.some_inj] at hcr
    subst hcr
    exact absurd hclns (by decide)

/-- C5: parsing is round-trip stable — serializing the parsed list as
"name: command" lines joined by newlines and parsing again yields the
same list. -/
theorem c5_parse_roundtrip (content : List Char) :
    parse_procfile_content (serializeProcs (parse_procfile_content content))
      = parse_procfile_content content := by
  generalize hps : parse_procfile_content content = ps
  have hshape : ∀ p ∈ ps, is_valid_process_name p.1 = true ∧ rustTrim p.2 = p.2 ∧
      p.2 ≠ [] ∧ '\n' ∉ p.2 := by
    intro p hp
    exact parse_pair_shape content p (hps ▸ hp)
  unfold serializeProcs parse_procfile_content
  rw [rustLines_joinLines (ps.map fun p => p.1 ++ ':' :: ' ' :: p.2) ?_]
  · rw [List.filterMap_map]
    have hpt : ∀ p ∈ ps,
        ((fun q => parseProcLine (q.1 ++ ':' :: ' ' :: q.2)) p) = some p := by
      intro p hp
      rcases hshape p hp with ⟨hv, hct, hcn, _⟩
      exact parseProcLine_serialized p.1 p.2 hv hct hcn
    calc ps.filterMap (parseProcLine ∘ fun p => p.1 ++ ':' :: ' ' :: p.2)
        = ps.filterMap some := List.filterMap_congr (fun p hp => hpt p hp)
      _ = ps := List.filterMap_some ps
  · intro l hl
    rcases List.mem_map.mp hl with ⟨p, hp, rfl⟩
    rcases hshape p hp with ⟨hv, hct, hcn, hnl2⟩
    exact serialized_line_ok p hv hct hcn hnl2

/-- Witness for C5 at a concrete Procfile text with messy whitespace
and a comment. -/
theorem c5_witness :
    parse_procfile_content (serializeProcs (parse_procfile_content
        "  web  :  bin/rails server -p 3000  \n\n# x\ncss:bin/rails tailwindcss:watch".toList))
      = parse_procfile_content
        "  web  :  bin/rails server -p 3000  \n\n# x\ncss:bin/rails tailwindcss:watch".toList :=
  c5_parse_roundtrip _

end Railsup
